import Mathlib

/-!
Verification development for the pwned_checker Bloom-filter core
(src/src/bloom_filter.c).

Conventions of the embedding:
* machine integers are `Nat` with explicit reduction `% 2 ^ 32` where
  32-bit overflow matters;
* byte buffers are `List Nat` (each entry a byte value `< 256`);
* a C string is a byte list read up to its first `0` byte (`cstring`);
* fallible allocation is an explicit `Bool` oracle and an `Option` result.

The header `bloom_filter.h` is not part of the sources; the constant
`BLOOM_SIZE` that it defines (used in `xxhash1/2/3` and
`determine_optimal_bloom_filters`) is therefore taken as an explicit
parameter of those functions, as the spec (§9 "Global-looking constants")
directs, and a concrete value modelled from the spec is provided as
`BLOOM_SIZE` below.
-/

/-- 2^32, the modulus of 32-bit unsigned arithmetic. -/
def U32 : Nat := 4294967296

/-- xxHash 32-bit prime 1. -/
def PRIME32_1 : Nat := 2654435761

/-- xxHash 32-bit prime 2. -/
def PRIME32_2 : Nat := 2246822519

/-- xxHash 32-bit prime 3. -/
def PRIME32_3 : Nat := 3266489917

/-- xxHash 32-bit prime 4. -/
def PRIME32_4 : Nat := 668265263

/-- xxHash 32-bit prime 5. -/
def PRIME32_5 : Nat := 374761393

/-- 32-bit left rotation (for `0 < r < 32` and `x < 2^32`). -/
def rotl32 (x r : Nat) : Nat :=
  ((x * 2 ^ r) % U32) ||| (x / 2 ^ (32 - r))

/-- Little-endian 32-bit read of four bytes starting at offset `off`. -/
def read32 (data : List Nat) (off : Nat) : Nat :=
  data.getD off 0 % 256 + (data.getD (off + 1) 0 % 256) * 256 +
    (data.getD (off + 2) 0 % 256) * 65536 + (data.getD (off + 3) 0 % 256) * 16777216

/-- The xxHash32 accumulator round. -/
def XXH32_round (acc lane : Nat) : Nat :=
  (rotl32 ((acc + lane * PRIME32_2) % U32) 13 * PRIME32_1) % U32

/-- Main loop of XXH32: consume `k` 16-byte stripes, updating the four
accumulators; returns the accumulators and the unconsumed bytes. -/
def XXH32_stripes : Nat → List Nat → Nat → Nat → Nat → Nat →
    Nat × Nat × Nat × Nat × List Nat
  | 0, data, v1, v2, v3, v4 => (v1, v2, v3, v4, data)
  | k + 1, data, v1, v2, v3, v4 =>
      XXH32_stripes k (data.drop 16)
        (XXH32_round v1 (read32 data 0)) (XXH32_round v2 (read32 data 4))
        (XXH32_round v3 (read32 data 8)) (XXH32_round v4 (read32 data 12))

/-- Tail loop of XXH32: consume `k` 4-byte lanes. -/
def XXH32_fours : Nat → List Nat → Nat → Nat × List Nat
  | 0, data, h => (h, data)
  | k + 1, data, h =>
      XXH32_fours k (data.drop 4)
        ((rotl32 ((h + read32 data 0 * PRIME32_3) % U32) 17 * PRIME32_4) % U32)

/-- Final byte loop of XXH32. -/
def XXH32_bytes : List Nat → Nat → Nat
  | [], h => h
  | b :: bs, h =>
      XXH32_bytes bs ((rotl32 ((h + b % 256 * PRIME32_5) % U32) 11 * PRIME32_1) % U32)

/-- XXH32 avalanche finalisation. -/
def XXH32_avalanche (h : Nat) : Nat :=
  let h1 := Nat.xor h (h / 2 ^ 15)
  let h2 := h1 * PRIME32_2 % U32
  let h3 := Nat.xor h2 (h2 / 2 ^ 13)
  let h4 := h3 * PRIME32_3 % U32
  Nat.xor h4 (h4 / 2 ^ 16)

/-- The 32-bit xxHash of a byte string with a seed, as computed by the
xxHash library's `XXH32` (the function the source links against). -/
def XXH32 (data : List Nat) (seed : Nat) : Nat :=
  let len := data.length
  let s := seed % U32
  let hrest : Nat × List Nat :=
    if 16 ≤ len then
      match XXH32_stripes (len / 16) data
          ((s + PRIME32_1 + PRIME32_2) % U32) ((s + PRIME32_2) % U32)
          s ((s + (U32 - PRIME32_1)) % U32) with
      | (v1, v2, v3, v4, rest) =>
          ((rotl32 v1 1 + rotl32 v2 7 + rotl32 v3 12 + rotl32 v4 18) % U32, rest)
    else
      ((s + PRIME32_5) % U32, data)
  let h0 := (hrest.1 + len) % U32
  let hrest2 := XXH32_fours (hrest.2.length / 4) hrest.2 h0
  XXH32_avalanche (XXH32_bytes hrest2.2 hrest2.1)

/-- The C string a `const char *` argument denotes: the bytes before the
first NUL byte.  `XXH32(data, strlen(data), seed)` in the source reads
exactly these bytes. -/
def cstring (data : List Nat) : List Nat := data.takeWhile (fun b => b != 0)

/-- Modelled from the spec: the header `bloom_filter.h` defining
`BLOOM_SIZE` is not among the sources; the source comment describes it as
"Size of one bloom filter in bits (8MB in bits)", i.e.
8 · 2^20 bytes · 8 bits/byte = 2^26 bits.  Functions that read the
constant take it as an explicit parameter (spec §9, "Global-looking
constants"); this is its concrete value. -/
def BLOOM_SIZE : Nat := 67108864

/-- `struct BloomFilter` (declared in the missing header, modelled from
the spec's data model §3 and the source's field usage): `bit_array` the
owned byte buffer, `size` the capacity in bits, `count` the number of
insert operations performed. -/
structure BloomFilter where
  bit_array : List Nat
  size : Nat
  count : Nat
deriving DecidableEq

instance : Inhabited BloomFilter := ⟨⟨[], 0, 0⟩⟩

/-- `xxhash1` (bloom_filter.c:120-122): `XXH32(data, strlen(data), 0) % BLOOM_SIZE`,
with the `BLOOM_SIZE` constant as the explicit parameter `m`. -/
def xxhash1 (m : Nat) (data : List Nat) : Nat := XXH32 (cstring data) 0 % m

/-- `xxhash2` (bloom_filter.c:124-126): seed 1. -/
def xxhash2 (m : Nat) (data : List Nat) : Nat := XXH32 (cstring data) 1 % m

/-- `xxhash3` (bloom_filter.c:128-130): seed 2. -/
def xxhash3 (m : Nat) (data : List Nat) : Nat := XXH32 (cstring data) 2 % m

/-- `set_bit` (bloom_filter.c:115-117):
`bit_array[index / 8] |= (1 << (index % 8))`.  An out-of-range byte index
(undefined behaviour in C) is modelled as a no-op (`List.set` out of
range). -/
def set_bit (bit_array : List Nat) (index : Nat) : List Nat :=
  bit_array.set (index / 8) (bit_array.getD (index / 8) 0 ||| 1 <<< (index % 8))

/-- `get_bit` (bloom_filter.c:162-164):
`bit_array[index / 8] & (1 << (index % 8))`, returned as the C `int`
(truthy iff nonzero).  An out-of-range read yields 0. -/
def get_bit (bit_array : List Nat) (index : Nat) : Nat :=
  bit_array.getD (index / 8) 0 &&& 1 <<< (index % 8)

/-- `bloom_insert` (bloom_filter.c:102-107): set the three hash-derived
bits (in call order `xxhash1`, `xxhash2`, `xxhash3`) and increment
`count`. -/
def bloom_insert (m : Nat) (filter : BloomFilter) (data : List Nat) : BloomFilter :=
  { filter with
    bit_array :=
      set_bit (set_bit (set_bit filter.bit_array (xxhash1 m data))
        (xxhash2 m data)) (xxhash3 m data)
    count := filter.count + 1 }

/-- The three bit indices `bloom_insert` passes to `set_bit`, in call
order (bloom_filter.c:103-105). -/
def bloom_insert_indices (m : Nat) (data : List Nat) : List Nat :=
  [xxhash1 m data, xxhash2 m data, xxhash3 m data]

/-- `bloom_filter_is_full` (bloom_filter.c:138-140):
`filter->count >= (filter->size / 8)`. -/
def bloom_filter_is_full (filter : BloomFilter) : Bool :=
  decide (filter.size / 8 ≤ filter.count)

/-- `bloom_contains` (bloom_filter.c:149-153): all three hash-derived
bits are set. -/
def bloom_contains (m : Nat) (filter : BloomFilter) (data : List Nat) : Bool :=
  (get_bit filter.bit_array (xxhash1 m data) != 0) &&
  (get_bit filter.bit_array (xxhash2 m data) != 0) &&
  (get_bit filter.bit_array (xxhash3 m data) != 0)

/-- `create_bloom_filter` (bloom_filter.c:34-49).  The two allocations
(`malloc` of the struct, `calloc` of the bit array) are modelled by the
Boolean oracles; failure of either yields `none` (the C code returns
`NULL`, freeing the struct when the array allocation fails).  On success
the bit array is the zeroed buffer of `size / 8` bytes and `count` is
0. -/
def create_bloom_filter (mallocOk callocOk : Bool) (size : Nat) : Option BloomFilter :=
  if mallocOk then
    if callocOk then
      some { bit_array := List.replicate (size / 8) 0, size := size, count := 0 }
    else none
  else none

/-- `determine_optimal_bloom_filters` (bloom_filter.c:23-26):
`(file_size + filter_size_bits - 1) / filter_size_bits` where
`filter_size_bits = BLOOM_SIZE`, the constant taken as the explicit
parameter `m`. -/
def determine_optimal_bloom_filters (m : Nat) (file_size : Nat) : Nat :=
  (file_size + m - 1) / m

/-- Effect of C `strncpy(dest, src, n)` on `dest`: at most `n` bytes of
`src` are copied; copying stops at the first NUL byte of `src` (bytes
after a NUL are neither copied nor read) and `dest` is then padded with
NUL bytes to length `n`.  `src` is the buffer contents from the source
pointer onward; in the source's only use the buffer always holds a NUL
(`fgets` terminates it), so the `[]` case is unreachable there. -/
def strncpy : Nat → List Nat → List Nat
  | 0, _ => []
  | n + 1, [] => List.replicate (n + 1) 0
  | n + 1, b :: bs => if b = 0 then List.replicate (n + 1) 0 else b :: strncpy n bs

/-- Key extraction from one corpus line (bloom_filter.c:83-84):
`strncpy(buf, line, 10); buf[10] = 0`.  `lineBytes` are the bytes `fgets`
stored before its terminating NUL (the line content, newline included);
`junk` is whatever uninitialized bytes follow that NUL in the 128-byte
stack buffer.  The result is the 11-byte buffer handed to
`bloom_insert`/`bloom_contains`. -/
def extract_key (lineBytes : List Nat) (junk : List Nat) : List Nat :=
  strncpy 10 (lineBytes ++ 0 :: junk) ++ [0]

/-- `populate_recursive_bloom_filters` (bloom_filter.c:77-94), with the
corpus stream as the list of its lines.  Each line's key is inserted
into the filter at `current_filter`; the cursor then advances modulo
`num_filters` exactly when `filters[current_filter]` is full after the
insert.  The C function mutates the filters and keeps the cursor in a
local; the model returns both as the final state.  (The adjacent stack
memory after a line's NUL never reaches the key — see `C8_amended` — so
it is passed as `[]` here.) -/
def populate_recursive_bloom_filters (m : Nat) (filters : List BloomFilter)
    (lines : List (List Nat)) (num_filters current_filter : Nat) :
    List BloomFilter × Nat :=
  match lines with
  | [] => (filters, current_filter)
  | line :: rest =>
      let key := extract_key line []
      let filters1 :=
        filters.set current_filter
          (bloom_insert m (filters.getD current_filter default) key)
      let current1 :=
        if bloom_filter_is_full (filters1.getD current_filter default) then
          (current_filter + 1) % num_filters
        else current_filter
      populate_recursive_bloom_filters m filters1 rest num_filters current1

/-- The shard index `populate_recursive_bloom_filters` reads and inserts
through at each processed line: the value of `current_filter` when that
line is handled.  Mirrors the recursion of
`populate_recursive_bloom_filters` exactly. -/
def populate_cursors (m : Nat) (filters : List BloomFilter)
    (lines : List (List Nat)) (num_filters current_filter : Nat) : List Nat :=
  match lines with
  | [] => []
  | line :: rest =>
      let key := extract_key line []
      let filters1 :=
        filters.set current_filter
          (bloom_insert m (filters.getD current_filter default) key)
      let current1 :=
        if bloom_filter_is_full (filters1.getD current_filter default) then
          (current_filter + 1) % num_filters
        else current_filter
      current_filter :: populate_cursors m filters1 rest num_filters current1

/-- `split_into_bloom_filters` (bloom_filter.c:58-67): if opening the
corpus file fails the filters are returned unpopulated; otherwise
population runs with the cursor initialized to 0. -/
def split_into_bloom_filters (m : Nat) (openOk : Bool) (filters : List BloomFilter)
    (lines : List (List Nat)) (num_filters : Nat) : List BloomFilter :=
  if openOk then
    (populate_recursive_bloom_filters m filters lines num_filters 0).1
  else filters

/-- Modelled from the spec: the aggregate query `contains_any` (§4.5) is
absent from the source ("The source does not provide this aggregate
operation"); per the spec it returns true iff any shard's
`bloom_contains` is true. -/
def contains_any (m : Nat) (filters : List BloomFilter) (data : List Nat) : Bool :=
  filters.any (fun f => bloom_contains m f data)

/-- Modelled from the spec (§4.4, steps 3-4): one population step on the
state `(shard_set, current_shard)` — extract the fixed-width key, insert
it into `shard_set[current_shard]`, then advance the cursor by
`(current_shard + 1) mod shard_count` exactly when
`shard_set[current_shard].is_full()` holds after the insert. -/
def populate_step_spec (m num_filters : Nat) (st : List BloomFilter × Nat)
    (line : List Nat) : List BloomFilter × Nat :=
  let key := extract_key line []
  let shards := st.1.set st.2 (bloom_insert m (st.1.getD st.2 default) key)
  (shards,
    if bloom_filter_is_full (shards.getD st.2 default) then
      (st.2 + 1) % num_filters
    else st.2)

/-- Modelled from the spec (§4.4): population is the left fold of
`populate_step_spec` over the corpus lines in file order. -/
def populate_spec (m num_filters : Nat) (st : List BloomFilter × Nat)
    (lines : List (List Nat)) : List BloomFilter × Nat :=
  lines.foldl (populate_step_spec m num_filters) st

/-- A sequence of further insert operations on a filter (spec §8, "any
further sequence of insert operations"). -/
def insert_list (m : Nat) (filter : BloomFilter) (ks : List (List Nat)) : BloomFilter :=
  ks.foldl (bloom_insert m) filter

/-!
Helper lemmas.
-/

/-- Published xxHash test vector: `XXH32("", 0) = 0x02CC5D05`. -/
theorem XXH32_vector_empty : XXH32 [] 0 = 46947589 := by decide

/-- Published xxHash test vector: `XXH32("abc", 0) = 0x32D153FF`. -/
theorem XXH32_vector_abc : XXH32 [97, 98, 99] 0 = 852579327 := by decide

/-- Published xxHash test vector (exercising the 16-byte stripe loop):
`XXH32("The quick brown fox jumps over the lazy dog", 0) = 0xE85EA4DE`. -/
theorem XXH32_vector_fox :
    XXH32 [84, 104, 101, 32, 113, 117, 105, 99, 107, 32, 98, 114, 111, 119, 110,
      32, 102, 111, 120, 32, 106, 117, 109, 112, 115, 32, 111, 118, 101, 114,
      32, 116, 104, 101, 32, 108, 97, 122, 121, 32, 100, 111, 103] 0
      = 3898516702 := by decide

theorem getD_set_self {α : Type} :
    ∀ (l : List α) (i : Nat) (x d : α), i < l.length → (l.set i x).getD i d = x
  | [], _, _, _, h => absurd h (by simp)
  | _ :: _, 0, _, _, _ => rfl
  | _ :: l, i + 1, x, d, h => getD_set_self l i x d (by simpa using h)

theorem getD_set_of_ne {α : Type} :
    ∀ (l : List α) (i j : Nat) (x d : α), i ≠ j → (l.set i x).getD j d = l.getD j d
  | [], _, _, _, _, _ => rfl
  | _ :: _, 0, 0, _, _, h => absurd rfl h
  | _ :: _, 0, _ + 1, _, _, _ => rfl
  | _ :: _, _ + 1, 0, _, _, _ => rfl
  | _ :: l, i + 1, j + 1, x, d, h =>
      getD_set_of_ne l i j x d (fun e => h (by rw [e]))

theorem getD_eq_get {α : Type} :
    ∀ (l : List α) (i : Nat) (d : α) (h : i < l.length), l.getD i d = l.get ⟨i, h⟩
  | _ :: _, 0, _, _ => rfl
  | _ :: l, i + 1, d, h => getD_eq_get l i d (by simpa using h)

theorem getD_mem {α : Type} (l : List α) (i : Nat) (d : α) (h : i < l.length) :
    l.getD i d ∈ l := by
  rw [getD_eq_get l i d h]
  exact List.get_mem l i h

/-- `get_bit` is truthy exactly when the corresponding bit of the
addressed byte is set. -/
theorem get_bit_ne_zero_iff (b : List Nat) (i : Nat) :
    get_bit b i ≠ 0 ↔ (b.getD (i / 8) 0).testBit (i % 8) = true := by
  unfold get_bit
  rw [Nat.one_shiftLeft, Nat.and_two_pow]
  cases h : (b.getD (i / 8) 0).testBit (i % 8) <;> simp [h]

theorem length_set_bit (b : List Nat) (i : Nat) :
    (set_bit b i).length = b.length := by
  unfold set_bit
  exact List.length_set b _ _

/-- `set_bit` at an in-range index makes `get_bit` at that index truthy. -/
theorem get_bit_set_bit_self (b : List Nat) (i : Nat) (h : i / 8 < b.length) :
    get_bit (set_bit b i) i ≠ 0 := by
  rw [get_bit_ne_zero_iff]
  unfold set_bit
  rw [getD_set_self b _ _ _ h, Nat.one_shiftLeft, Nat.testBit_or,
    Nat.testBit_two_pow_self]
  simp

/-- `set_bit` never clears a bit. -/
theorem get_bit_set_bit_mono (b : List Nat) (i j : Nat) (h : get_bit b i ≠ 0) :
    get_bit (set_bit b j) i ≠ 0 := by
  rw [get_bit_ne_zero_iff] at h ⊢
  unfold set_bit
  by_cases hb : j / 8 = i / 8
  · by_cases hlen : j / 8 < b.length
    · rw [hb] at hlen ⊢
      rw [getD_set_self b _ _ _ hlen, Nat.testBit_or, h]
      simp
    · rw [List.set_eq_of_length_le (Nat.le_of_not_lt hlen)]
      exact h
  · rw [getD_set_of_ne b _ _ _ _ hb]
    exact h

/-- Exact effect of one in-range `set_bit` on `get_bit`: the written bit
becomes truthy, every other bit keeps its value. -/
theorem get_bit_set_bit_iff (b : List Nat) (i j : Nat) (hi : i / 8 < b.length) :
    get_bit (set_bit b i) j ≠ 0 ↔ (j = i ∨ get_bit b j ≠ 0) := by
  rw [get_bit_ne_zero_iff, get_bit_ne_zero_iff]
  unfold set_bit
  by_cases hb : i / 8 = j / 8
  · rw [← hb, getD_set_self b _ _ _ hi, Nat.one_shiftLeft, Nat.testBit_or]
    by_cases hm : i % 8 = j % 8
    · have hij : j = i := by omega
      rw [hm, Nat.testBit_two_pow_self]
      simp [hij]
    · have hij : j ≠ i := by omega
      rw [Nat.testBit_two_pow_of_ne hm]
      have hb2 : b.getD (i / 8) 0 = b.getD (j / 8) 0 := by rw [hb]
      simp [hij, hb2]
  · have hij : j ≠ i := by omega
    rw [getD_set_of_ne b _ _ _ _ hb]
    simp [hij]

theorem bloom_insert_count (m : Nat) (f : BloomFilter) (data : List Nat) :
    (bloom_insert m f data).count = f.count + 1 := rfl

theorem bloom_insert_size (m : Nat) (f : BloomFilter) (data : List Nat) :
    (bloom_insert m f data).size = f.size := rfl

theorem bloom_insert_length (m : Nat) (f : BloomFilter) (data : List Nat) :
    (bloom_insert m f data).bit_array.length = f.bit_array.length := by
  unfold bloom_insert
  simp [length_set_bit]

/-- `bloom_insert` is the left fold of `set_bit` over
`bloom_insert_indices` (plus the count increment). -/
theorem bloom_insert_eq_foldl (m : Nat) (f : BloomFilter) (data : List Nat) :
    bloom_insert m f data =
      { f with bit_array := (bloom_insert_indices m data).foldl set_bit f.bit_array,
               count := f.count + 1 } := rfl

/-- Each hash-derived bit index is below the reduction modulus. -/
theorem bloom_insert_indices_lt (m : Nat) (data : List Nat) (hm : 0 < m) :
    ∀ i ∈ bloom_insert_indices m data, i < m := by
  intro i hi
  simp only [bloom_insert_indices, List.mem_cons, List.not_mem_nil, or_false] at hi
  rcases hi with h | h | h <;> subst h <;>
    first
      | exact Nat.mod_lt _ hm

theorem insert_list_count (m : Nat) :
    ∀ (ks : List (List Nat)) (f : BloomFilter),
      (insert_list m f ks).count = f.count + ks.length
  | [], _ => rfl
  | k :: ks, f => by
      have ih := insert_list_count m ks (bloom_insert m f k)
      simp only [insert_list, List.foldl_cons] at ih ⊢
      rw [ih, bloom_insert_count]
      simp [Nat.add_assoc, Nat.add_comm 1 ks.length]

theorem insert_list_size (m : Nat) :
    ∀ (ks : List (List Nat)) (f : BloomFilter), (insert_list m f ks).size = f.size
  | [], _ => rfl
  | k :: ks, f => by
      have ih := insert_list_size m ks (bloom_insert m f k)
      simp only [insert_list, List.foldl_cons] at ih ⊢
      rw [ih, bloom_insert_size]

theorem insert_list_length (m : Nat) :
    ∀ (ks : List (List Nat)) (f : BloomFilter),
      (insert_list m f ks).bit_array.length = f.bit_array.length
  | [], _ => rfl
  | k :: ks, f => by
      have ih := insert_list_length m ks (bloom_insert m f k)
      simp only [insert_list, List.foldl_cons] at ih ⊢
      rw [ih, bloom_insert_length]

/-- Inserting a key makes the filter contain it, provided the bit array
has the `modulus / 8` bytes the hash-derived indices address. -/
theorem bloom_contains_bloom_insert_self (m : Nat) (f : BloomFilter) (data : List Nat)
    (hm8 : m % 8 = 0) (hm : 0 < m) (hlen : f.bit_array.length = m / 8) :
    bloom_contains m (bloom_insert m f data) data = true := by
  have h1 : xxhash1 m data < m := by unfold xxhash1; exact Nat.mod_lt _ hm
  have h2 : xxhash2 m data < m := by unfold xxhash2; exact Nat.mod_lt _ hm
  have h3 : xxhash3 m data < m := by unfold xxhash3; exact Nat.mod_lt _ hm
  have l1 : (set_bit f.bit_array (xxhash1 m data)).length = m / 8 := by
    rw [length_set_bit, hlen]
  have l2 : (set_bit (set_bit f.bit_array (xxhash1 m data)) (xxhash2 m data)).length
      = m / 8 := by
    rw [length_set_bit, l1]
  have b1 : xxhash1 m data / 8 < f.bit_array.length := by omega
  have b2 : xxhash2 m data / 8 < (set_bit f.bit_array (xxhash1 m data)).length := by
    omega
  have b3 : xxhash3 m data / 8 <
      (set_bit (set_bit f.bit_array (xxhash1 m data)) (xxhash2 m data)).length := by
    omega
  simp only [bloom_contains, bloom_insert, Bool.and_eq_true, bne_iff_ne, ne_eq]
  exact ⟨⟨get_bit_set_bit_mono _ _ _
            (get_bit_set_bit_mono _ _ _ (get_bit_set_bit_self _ _ b1)),
          get_bit_set_bit_mono _ _ _ (get_bit_set_bit_self _ _ b2)⟩,
        get_bit_set_bit_self _ _ b3⟩

/-- A further insert (of any key) never makes `bloom_contains` flip from
true to false. -/
theorem bloom_contains_mono_insert (m : Nat) (f : BloomFilter) (k k2 : List Nat)
    (h : bloom_contains m f k = true) :
    bloom_contains m (bloom_insert m f k2) k = true := by
  simp only [bloom_contains, bloom_insert, Bool.and_eq_true, bne_iff_ne, ne_eq] at h ⊢
  exact ⟨⟨get_bit_set_bit_mono _ _ _ (get_bit_set_bit_mono _ _ _
            (get_bit_set_bit_mono _ _ _ h.1.1)),
          get_bit_set_bit_mono _ _ _ (get_bit_set_bit_mono _ _ _
            (get_bit_set_bit_mono _ _ _ h.1.2))⟩,
        get_bit_set_bit_mono _ _ _ (get_bit_set_bit_mono _ _ _
            (get_bit_set_bit_mono _ _ _ h.2))⟩

theorem bloom_contains_mono_insert_list (m : Nat) :
    ∀ (ks : List (List Nat)) (f : BloomFilter) (k : List Nat),
      bloom_contains m f k = true →
      bloom_contains m (insert_list m f ks) k = true
  | [], _, _, h => h
  | k2 :: ks, f, k, h =>
      bloom_contains_mono_insert_list m ks (bloom_insert m f k2) k
        (bloom_contains_mono_insert m f k k2 h)

/-- `contains_any` is true exactly when some shard index answers true. -/
theorem contains_any_iff (m : Nat) (fs : List BloomFilter) (k : List Nat) :
    contains_any m fs k = true ↔
      ∃ i, ∃ _ : i < fs.length, bloom_contains m (fs.getD i default) k = true := by
  unfold contains_any
  rw [List.any_eq_true]
  constructor
  · rintro ⟨f, hmem, hf⟩
    obtain ⟨⟨i, hi⟩, rfl⟩ := List.mem_iff_get.mp hmem
    exact ⟨i, hi, by rw [getD_eq_get fs i default hi]; exact hf⟩
  · rintro ⟨i, hi, h⟩
    exact ⟨fs.getD i default, getD_mem fs i default hi, h⟩

/-- One population step (insert into the shard at `cur`) preserves a
positive `contains_any` answer. -/
theorem contains_any_set_insert (m : Nat) (fs : List BloomFilter) (cur : Nat)
    (k key : List Nat) (h : contains_any m fs k = true) :
    contains_any m (fs.set cur (bloom_insert m (fs.getD cur default) key)) k
      = true := by
  rw [contains_any_iff] at h ⊢
  obtain ⟨i, hi, hc⟩ := h
  refine ⟨i, by simpa using hi, ?_⟩
  by_cases hcur : cur = i
  · subst hcur
    by_cases hlt : cur < fs.length
    · rw [getD_set_self fs _ _ _ hlt]
      exact bloom_contains_mono_insert m _ k key hc
    · rw [List.set_eq_of_length_le (Nat.le_of_not_lt hlt)]
      exact hc
  · rw [getD_set_of_ne fs _ _ _ _ hcur]
    exact hc

/-- Population preserves a positive `contains_any` answer. -/
theorem contains_any_populate_mono (m n : Nat) :
    ∀ (lines : List (List Nat)) (fs : List BloomFilter) (cur : Nat) (k : List Nat),
      contains_any m fs k = true →
      contains_any m (populate_recursive_bloom_filters m fs lines n cur).1 k = true
  | [], _, _, _, h => h
  | line :: rest, fs, cur, k, h =>
      contains_any_populate_mono m n rest _ _ k
        (contains_any_set_insert m fs cur k (extract_key line []) h)

theorem getD_replicate_zero : ∀ (L i : Nat), (List.replicate L (0 : Nat)).getD i 0 = 0
  | 0, _ => rfl
  | _ + 1, 0 => rfl
  | L + 1, i + 1 => getD_replicate_zero L i

/-- `strncpy` never reads the bytes after the first NUL of the source
buffer: on `line ++ 0 :: junk` (with NUL-free `line`) the result is the
truncated line, NUL-padded, independently of `junk`. -/
theorem strncpy_no_junk_read :
    ∀ (n : Nat) (line junk : List Nat), (∀ b ∈ line, b ≠ 0) →
      strncpy n (line ++ 0 :: junk) =
        line.take n ++ List.replicate (n - line.length) 0
  | 0, line, _, _ => by simp [strncpy]
  | n + 1, [], _, _ => by simp [strncpy]
  | n + 1, b :: line, junk, h => by
      have hb : b ≠ 0 := h b (List.mem_cons_self b line)
      show strncpy (n + 1) (b :: (line ++ 0 :: junk)) = _
      rw [strncpy, if_neg hb,
        strncpy_no_junk_read n line junk (fun x hx => h x (List.mem_cons_of_mem b hx))]
      simp

/-- Every cursor value at which population reads or inserts stays below
`num_filters`, for any in-range starting cursor. -/
theorem populate_cursors_lt (m : Nat) :
    ∀ (lines : List (List Nat)) (fs : List BloomFilter) (n cur : Nat),
      1 ≤ n → cur < n → ∀ i ∈ populate_cursors m fs lines n cur, i < n
  | [], _, _, _, _, _ => by
      intro i hi
      cases hi
  | line :: rest, fs, n, cur, hn, hcur => by
      intro i hi
      have hcur1 : (if bloom_filter_is_full
          ((fs.set cur (bloom_insert m (fs.getD cur default)
            (extract_key line []))).getD cur default) then
          (cur + 1) % n
        else cur) < n := by
        split
        · exact Nat.mod_lt _ hn
        · exact hcur
      rcases List.mem_cons.mp hi with rfl | h2
      · exact hcur
      · exact populate_cursors_lt m rest _ n _ hn hcur1 i h2

/-- The final cursor of population stays below `num_filters`. -/
theorem populate_final_cursor_lt (m : Nat) :
    ∀ (lines : List (List Nat)) (fs : List BloomFilter) (n cur : Nat),
      1 ≤ n → cur < n →
      (populate_recursive_bloom_filters m fs lines n cur).2 < n
  | [], _, _, _, _, hcur => hcur
  | line :: rest, fs, n, cur, hn, hcur => by
      have hcur1 : (if bloom_filter_is_full
          ((fs.set cur (bloom_insert m (fs.getD cur default)
            (extract_key line []))).getD cur default) then
          (cur + 1) % n
        else cur) < n := by
        split
        · exact Nat.mod_lt _ hn
        · exact hcur
      exact populate_final_cursor_lt m rest _ n _ hn hcur1

/-- Every key processed by population is afterwards found by
`contains_any`, for any in-range starting cursor. -/
theorem populate_no_false_negatives (m n : Nat) (hm8 : m % 8 = 0) (hm : 0 < m)
    (hn : 0 < n) :
    ∀ (lines : List (List Nat)) (fs : List BloomFilter) (cur : Nat),
      fs.length = n → cur < n →
      (∀ f ∈ fs, f.bit_array.length = m / 8) →
      ∀ line ∈ lines,
        contains_any m (populate_recursive_bloom_filters m fs lines n cur).1
          (extract_key line []) = true
  | [], _, _, _, _, _ => by
      intro line hline
      cases hline
  | line :: rest, fs, cur, hlen, hcur, hinv => by
      intro l hl
      have hcurlen : cur < fs.length := by omega
      have hgetlen : (fs.getD cur default).bit_array.length = m / 8 :=
        hinv _ (getD_mem fs cur default hcurlen)
      have hlen1 : (fs.set cur
          (bloom_insert m (fs.getD cur default) (extract_key line []))).length
          = n := by simpa using hlen
      have hinv1 : ∀ f ∈ fs.set cur
          (bloom_insert m (fs.getD cur default) (extract_key line [])),
          f.bit_array.length = m / 8 := by
        intro f hf
        rcases List.mem_or_eq_of_mem_set hf with hf2 | rfl
        · exact hinv f hf2
        · rw [bloom_insert_length]
          exact hgetlen
      have hstep : populate_recursive_bloom_filters m fs (line :: rest) n cur =
          populate_recursive_bloom_filters m
            (fs.set cur (bloom_insert m (fs.getD cur default) (extract_key line [])))
            rest n
            (if bloom_filter_is_full
                ((fs.set cur (bloom_insert m (fs.getD cur default)
                  (extract_key line []))).getD cur default) then
              (cur + 1) % n
            else cur) := rfl
      have hcur1 : (if bloom_filter_is_full
          ((fs.set cur (bloom_insert m (fs.getD cur default)
            (extract_key line []))).getD cur default) then
          (cur + 1) % n
        else cur) < n := by
        split
        · exact Nat.mod_lt _ hn
        · exact hcur
      rw [hstep]
      rcases List.mem_cons.mp hl with rfl | hl2
      · apply contains_any_populate_mono
        rw [contains_any_iff]
        refine ⟨cur, by omega, ?_⟩
        rw [getD_set_self fs _ _ _ hcurlen]
        exact bloom_contains_bloom_insert_self m _ _ hm8 hm hgetlen
      · exact populate_no_false_negatives m n hm8 hm hn rest _ _ hlen1 hcur1 hinv1
          l hl2

/-!
The claims.
-/

/-- Claim C1: no false negatives within a single filter — for every key
k inserted into a filter created (by `create_bloom_filter`) with
capacity equal to the hash-reduction modulus, `bloom_contains` answers
true immediately after the insert and after any further sequence of
insert operations, for the filter's lifetime. -/
theorem C1_no_false_negatives_single_filter (m : Nat) (f : BloomFilter)
    (ks1 : List (List Nat)) (k : List Nat) (ks2 : List (List Nat))
    (hm8 : m % 8 = 0) (hm : 0 < m)
    (hf : create_bloom_filter true true m = some f) :
    bloom_contains m (insert_list m (bloom_insert m (insert_list m f ks1) k) ks2)
      k = true := by
  have hf2 : f = ⟨List.replicate (m / 8) 0, m, 0⟩ := (Option.some.inj hf).symm
  have hlen : (insert_list m f ks1).bit_array.length = m / 8 := by
    rw [insert_list_length, hf2]
    simp
  exact bloom_contains_mono_insert_list m ks2 _ k
    (bloom_contains_bloom_insert_self m _ k hm8 hm hlen)

/-- Witness for C1 at modulus 16: filter fresh from creation, key `[65]`
inserted, then one further insert. -/
theorem C1_witness :
    16 % 8 = 0 ∧ 0 < 16 ∧
    create_bloom_filter true true 16 = some ⟨[0, 0], 16, 0⟩ ∧
    bloom_contains 16
      (insert_list 16 (bloom_insert 16 (insert_list 16 ⟨[0, 0], 16, 0⟩ []) [65])
        [[66]]) [65] = true :=
  ⟨by decide, by decide, by decide,
    C1_no_false_negatives_single_filter 16 ⟨[0, 0], 16, 0⟩ [] [65] [[66]]
      (by decide) (by decide) (by decide)⟩

/-- Claim C2: no false negatives across the shard set — after population
(run by `split_into_bloom_filters` on a successfully opened corpus with
at least one shard) every processed line's key is reported present by
the aggregate query `contains_any`. -/
theorem C2_no_false_negatives_shard_set (m n : Nat) (fs : List BloomFilter)
    (lines : List (List Nat)) (hm8 : m % 8 = 0) (hm : 0 < m) (hn : 0 < n)
    (hlen : fs.length = n) (hinv : ∀ f ∈ fs, f.bit_array.length = m / 8) :
    ∀ line ∈ lines,
      contains_any m (split_into_bloom_filters m true fs lines n)
        (extract_key line []) = true := by
  intro line hline
  show contains_any m (populate_recursive_bloom_filters m fs lines n 0).1
      (extract_key line []) = true
  exact populate_no_false_negatives m n hm8 hm hn lines fs 0 hlen hn hinv line hline

/-- Witness for C2: one shard of capacity 16, a one-line corpus. -/
theorem C2_witness :
    16 % 8 = 0 ∧ 0 < 16 ∧ 0 < 1 ∧
    ([(⟨[0, 0], 16, 0⟩ : BloomFilter)]).length = 1 ∧
    (∀ f ∈ [(⟨[0, 0], 16, 0⟩ : BloomFilter)], f.bit_array.length = 16 / 8) ∧
    contains_any 16
      (split_into_bloom_filters 16 true [⟨[0, 0], 16, 0⟩] [[65]] 1)
      (extract_key [65] []) = true :=
  ⟨by decide, by decide, by decide, by decide, by decide,
    C2_no_false_negatives_shard_set 16 1 [⟨[0, 0], 16, 0⟩] [[65]]
      (by decide) (by decide) (by decide) (by decide) (by decide) [65]
      (by decide)⟩

/-- Claim C3 counterexample: `bloom_insert` does NOT reduce the hash
modulo the filter's own `capacity_bits`.  On a filter of capacity 16
(2-byte array, as `create_bloom_filter 16` builds) the key
"AAAAAAAAAA" is hashed modulo the global `BLOOM_SIZE`, giving an index
far above 16, so the insert sets no bit of the filter at all — while
reduction modulo `capacity_bits = 16` would be the distinct value
`XXH32(key, 0) % 16` and would set a bit of the array. -/
theorem C3_counterexample :
    (bloom_insert BLOOM_SIZE ⟨[0, 0], 16, 0⟩
        [65, 65, 65, 65, 65, 65, 65, 65, 65, 65]).bit_array = [0, 0] ∧
    16 ≤ xxhash1 BLOOM_SIZE [65, 65, 65, 65, 65, 65, 65, 65, 65, 65] ∧
    xxhash1 BLOOM_SIZE [65, 65, 65, 65, 65, 65, 65, 65, 65, 65] ≠
      XXH32 (cstring [65, 65, 65, 65, 65, 65, 65, 65, 65, 65]) 0 % 16 := by
  decide

/-- Claim C3 (amended): `bloom_insert` computes its three bit positions
by hashing the key's C-string bytes with seeds 0, 1, 2 and reducing
modulo the global `BLOOM_SIZE` constant (the hash-reduction modulus `m`)
— not modulo the filter's own `capacity_bits`; the two coincide exactly
for filters created with capacity `m`.  For such a filter it sets
exactly those three bits (all other bits unchanged) and increments
`count` by exactly one unconditionally. -/
theorem C3_amended_insert_semantics (m : Nat) (f : BloomFilter) (data : List Nat)
    (hm8 : m % 8 = 0) (hm : 0 < m) (hlen : f.bit_array.length = m / 8) :
    (bloom_insert m f data).count = f.count + 1 ∧
    bloom_insert_indices m data =
      [XXH32 (cstring data) 0 % m, XXH32 (cstring data) 1 % m,
        XXH32 (cstring data) 2 % m] ∧
    ∀ j, get_bit (bloom_insert m f data).bit_array j ≠ 0 ↔
      (j ∈ bloom_insert_indices m data ∨ get_bit f.bit_array j ≠ 0) := by
  refine ⟨rfl, rfl, ?_⟩
  intro j
  have h1 : xxhash1 m data < m := by unfold xxhash1; exact Nat.mod_lt _ hm
  have h2 : xxhash2 m data < m := by unfold xxhash2; exact Nat.mod_lt _ hm
  have h3 : xxhash3 m data < m := by unfold xxhash3; exact Nat.mod_lt _ hm
  have l1 : (set_bit f.bit_array (xxhash1 m data)).length = m / 8 := by
    rw [length_set_bit, hlen]
  have l2 : (set_bit (set_bit f.bit_array (xxhash1 m data)) (xxhash2 m data)).length
      = m / 8 := by
    rw [length_set_bit, l1]
  have b1 : xxhash1 m data / 8 < f.bit_array.length := by omega
  have b2 : xxhash2 m data / 8 < (set_bit f.bit_array (xxhash1 m data)).length := by
    omega
  have b3 : xxhash3 m data / 8 <
      (set_bit (set_bit f.bit_array (xxhash1 m data)) (xxhash2 m data)).length := by
    omega
  show get_bit (set_bit (set_bit (set_bit f.bit_array (xxhash1 m data))
      (xxhash2 m data)) (xxhash3 m data)) j ≠ 0 ↔ _
  rw [get_bit_set_bit_iff _ _ _ b3, get_bit_set_bit_iff _ _ _ b2,
    get_bit_set_bit_iff _ _ _ b1]
  simp only [bloom_insert_indices, List.mem_cons, List.not_mem_nil, or_false]
  constructor
  · rintro (h | h | h | h)
    · exact Or.inl (Or.inr (Or.inr h))
    · exact Or.inl (Or.inr (Or.inl h))
    · exact Or.inl (Or.inl h)
    · exact Or.inr h
  · rintro ((h | h | h) | h)
    · exact Or.inr (Or.inr (Or.inl h))
    · exact Or.inr (Or.inl h)
    · exact Or.inl h
    · exact Or.inr (Or.inr (Or.inr h))

/-- Witness for the amended C3 at modulus 16, capacity-16 filter, key
`[65]`, bit index 2. -/
theorem C3_witness :
    16 % 8 = 0 ∧ 0 < 16 ∧ ([(0 : Nat), 0]).length = 16 / 8 ∧
    (get_bit (bloom_insert 16 ⟨[0, 0], 16, 0⟩ [65]).bit_array 2 ≠ 0 ↔
      (2 ∈ bloom_insert_indices 16 [65] ∨ get_bit [0, 0] 2 ≠ 0)) :=
  ⟨by decide, by decide, by decide,
    (C3_amended_insert_semantics 16 ⟨[0, 0], 16, 0⟩ [65]
      (by decide) (by decide) (by decide)).2.2 2⟩

/-- Claim C4 counterexample: the bit-index invariant does NOT hold
"regardless of the capacity value the filter was created with".  A
filter created with capacity 8 exists, yet inserting the key
"AAAAAAAAAA" passes `set_bit` the index `xxhash1 BLOOM_SIZE key`, which
is one of the set bit indices and is not in `[0, 8)`. -/
theorem C4_counterexample :
    create_bloom_filter true true 8 = some ⟨[0], 8, 0⟩ ∧
    xxhash1 BLOOM_SIZE [65, 65, 65, 65, 65, 65, 65, 65, 65, 65] ∈
      bloom_insert_indices BLOOM_SIZE [65, 65, 65, 65, 65, 65, 65, 65, 65, 65] ∧
    8 ≤ xxhash1 BLOOM_SIZE [65, 65, 65, 65, 65, 65, 65, 65, 65, 65] := by
  decide

/-- Claim C4 (amended): every index `bloom_insert` sets lies in
`[0, BLOOM_SIZE)` for the reduction modulus `BLOOM_SIZE` (taken as the
parameter `m`), not in `[0, capacity_bits)` for arbitrary capacities;
and the byte-length/size invariants hold at creation and are preserved
by every sequence of inserts.  Hence the claimed invariant does hold for
filters created with capacity equal to the modulus. -/
theorem C4_amended_invariant (m : Nat) (f : BloomFilter) (ks : List (List Nat))
    (hm : 0 < m) (hf : create_bloom_filter true true m = some f) :
    (∀ data, ∀ i ∈ bloom_insert_indices m data, i < m) ∧
    (insert_list m f ks).size = m ∧
    (insert_list m f ks).bit_array.length = m / 8 := by
  have hf2 : f = ⟨List.replicate (m / 8) 0, m, 0⟩ := (Option.some.inj hf).symm
  refine ⟨fun data => bloom_insert_indices_lt m data hm, ?_, ?_⟩
  · rw [insert_list_size, hf2]
  · rw [insert_list_length, hf2]
    simp

/-- Witness for the amended C4 at modulus 16 with one insert. -/
theorem C4_witness :
    0 < 16 ∧ create_bloom_filter true true 16 = some ⟨[0, 0], 16, 0⟩ ∧
    ((∀ data, ∀ i ∈ bloom_insert_indices 16 data, i < 16) ∧
      (insert_list 16 ⟨[0, 0], 16, 0⟩ [[65]]).size = 16 ∧
      (insert_list 16 ⟨[0, 0], 16, 0⟩ [[65]]).bit_array.length = 16 / 8) :=
  ⟨by decide, by decide,
    C4_amended_invariant 16 ⟨[0, 0], 16, 0⟩ [[65]] (by decide) (by decide)⟩

/-- Claim C5: `bloom_filter_is_full` is true iff
`inserted_count ≥ capacity_bits / 8`; concretely, on a filter created
with `capacity_bits = 800`, a sequence of inserts makes it full exactly
from the 100th insert on. -/
theorem C5_is_full_threshold (g f : BloomFilter) (m : Nat) (ks : List (List Nat))
    (hf : create_bloom_filter true true 800 = some f) :
    (bloom_filter_is_full g = true ↔ g.size / 8 ≤ g.count) ∧
    (bloom_filter_is_full (insert_list m f ks) = true ↔ 100 ≤ ks.length) := by
  have hf2 : f = ⟨List.replicate 100 0, 800, 0⟩ := (Option.some.inj hf).symm
  constructor
  · simp [bloom_filter_is_full]
  · simp only [bloom_filter_is_full, insert_list_size, insert_list_count, hf2,
      decide_eq_true_eq]
    show (800 : Nat) / 8 ≤ 0 + ks.length ↔ 100 ≤ ks.length
    omega

/-- Witness for C5: the empty insert sequence (0 < 100 inserts, not yet
full) on the concrete capacity-800 filter. -/
theorem C5_witness :
    create_bloom_filter true true 800 = some ⟨List.replicate 100 0, 800, 0⟩ ∧
    ((bloom_filter_is_full ⟨[0], 8, 0⟩ = true ↔
        (⟨[0], 8, 0⟩ : BloomFilter).size / 8 ≤ (⟨[0], 8, 0⟩ : BloomFilter).count) ∧
      (bloom_filter_is_full (insert_list 16 ⟨List.replicate 100 0, 800, 0⟩ []) = true ↔
        100 ≤ ([] : List (List Nat)).length)) :=
  ⟨rfl, C5_is_full_threshold ⟨[0], 8, 0⟩ ⟨List.replicate 100 0, 800, 0⟩ 16 [] rfl⟩

/-- Claim C6: round-robin-with-rollover rotation — the source populate
agrees with the spec-side fold `populate_spec` (per line: insert at the
cursor, then advance `(current + 1) mod shard_count` exactly when the
shard at the cursor is full, else keep the cursor), and
`split_into_bloom_filters` starts the cursor at 0. -/
theorem C6_round_robin_rotation (m n : Nat) (fs : List BloomFilter)
    (lines : List (List Nat)) (cur : Nat) :
    populate_recursive_bloom_filters m fs lines n cur =
      populate_spec m n (fs, cur) lines ∧
    split_into_bloom_filters m true fs lines n =
      (populate_spec m n (fs, 0) lines).1 := by
  have key : ∀ (ls : List (List Nat)) (gs : List BloomFilter) (c : Nat),
      populate_recursive_bloom_filters m gs ls n c = populate_spec m n (gs, c) ls := by
    intro ls
    induction ls with
    | nil => intro gs c; rfl
    | cons line rest ih => intro gs c; exact ih _ _
  refine ⟨key lines fs cur, ?_⟩
  show (populate_recursive_bloom_filters m fs lines n 0).1 = _
  rw [key lines fs 0]

/-- Claim C7: the shard planner computes the ceiling of
`file_bytes / filter_bit_width` — it is the least count whose total
width covers the bytes, and takes the spec's sample values. -/
theorem C7_planner_ceiling (w n j k : Nat) (hw : 0 < w) (hk : 0 < k) :
    n ≤ determine_optimal_bloom_filters w n * w ∧
    (n ≤ j * w → determine_optimal_bloom_filters w n ≤ j) ∧
    determine_optimal_bloom_filters w 0 = 0 ∧
    determine_optimal_bloom_filters w w = 1 ∧
    determine_optimal_bloom_filters w (w + 1) = 2 ∧
    determine_optimal_bloom_filters w (k * w) = k := by
  unfold determine_optimal_bloom_filters
  have hd := Nat.div_add_mod (n + w - 1) w
  have hr := Nat.mod_lt (n + w - 1) hw
  refine ⟨?_, ?_, ?_, ?_, ?_, ?_⟩
  · rw [Nat.mul_comm]
    omega
  · intro hnj
    have h2 : (n + w - 1) / w < j + 1 ↔ n + w - 1 < (j + 1) * w :=
      Nat.div_lt_iff_lt_mul hw
    rw [Nat.add_mul, Nat.one_mul] at h2
    have h3 : n + w - 1 < j * w + w := by omega
    have h4 := h2.mpr h3
    omega
  · have he : 0 + w - 1 = w - 1 := by omega
    rw [he, Nat.div_eq_of_lt (by omega)]
  · have he : w + w - 1 = (w - 1) + w := by omega
    rw [he, Nat.add_div_right _ hw, Nat.div_eq_of_lt (by omega)]
  · have he : w + 1 + w - 1 = (0 + w) + w := by omega
    rw [he, Nat.add_div_right _ hw, Nat.add_div_right _ hw, Nat.zero_div]
  · have he : k * w + w - 1 = (w - 1) + w * k := by
      rw [Nat.mul_comm]
      omega
    rw [he, Nat.add_mul_div_left _ _ hw, Nat.div_eq_of_lt (by omega), Nat.zero_add]

/-- Witness for C7 at width 8, 17 bytes, bound 3, multiplier 2. -/
theorem C7_witness :
    0 < 8 ∧ 0 < 2 ∧
    (17 ≤ determine_optimal_bloom_filters 8 17 * 8 ∧
      (17 ≤ 3 * 8 → determine_optimal_bloom_filters 8 17 ≤ 3) ∧
      determine_optimal_bloom_filters 8 0 = 0 ∧
      determine_optimal_bloom_filters 8 8 = 1 ∧
      determine_optimal_bloom_filters 8 (8 + 1) = 2 ∧
      determine_optimal_bloom_filters 8 (2 * 8) = 2) :=
  ⟨by decide, by decide, C7_planner_ceiling 8 17 3 2 (by decide) (by decide)⟩

/-- Claim C8 counterexample: at the concrete 4-byte line "abc\n"
(shorter than 10 characters), the extracted key is fully determined by
the line content: two runs whose adjacent (uninitialized) memory
differs completely produce the same key — the NUL-padded line — so the
copy does not read past the line and the key content is not
undefined. -/
theorem C8_counterexample :
    extract_key [97, 98, 99, 10] [255, 255, 255, 255, 255, 255] =
      extract_key [97, 98, 99, 10] [1, 2, 3, 4, 5, 6] ∧
    extract_key [97, 98, 99, 10] [255, 255, 255, 255, 255, 255] =
      [97, 98, 99, 10, 0, 0, 0, 0, 0, 0, 0] := by
  decide

/-- Claim C8 (amended): for corpus lines shorter than 10 characters the
key extraction is well defined, not undefined: `strncpy` stops copying
at the line's NUL terminator and pads the 10-byte destination with NUL
bytes, so the key is the line's bytes (newline included) zero-padded,
independent of whatever uninitialized memory follows the terminator.
The source indeed performs no explicit bound check, but none is needed
for memory safety of the copy. -/
theorem C8_amended_short_line_defined (line junk1 junk2 : List Nat)
    (h : ∀ b ∈ line, b ≠ 0) :
    extract_key line junk1 = extract_key line junk2 ∧
    extract_key line junk1 =
      (line.take 10 ++ List.replicate (10 - line.length) 0) ++ [0] := by
  unfold extract_key
  rw [strncpy_no_junk_read 10 line junk1 h, strncpy_no_junk_read 10 line junk2 h]
  exact ⟨rfl, rfl⟩

/-- Witness for the amended C8 on the line "abc\n" with two junks. -/
theorem C8_witness :
    (∀ b ∈ [(97 : Nat), 98, 99, 10], b ≠ 0) ∧
    (extract_key [97, 98, 99, 10] [255, 0, 7] =
        extract_key [97, 98, 99, 10] [12, 34] ∧
      extract_key [97, 98, 99, 10] [255, 0, 7] =
        (([(97 : Nat), 98, 99, 10]).take 10 ++
          List.replicate (10 - ([(97 : Nat), 98, 99, 10]).length) 0) ++ [0]) :=
  ⟨by decide,
    C8_amended_short_line_defined [97, 98, 99, 10] [255, 0, 7] [12, 34] (by decide)⟩

/-- Claim C9: for every capacity that is a multiple of 8,
`create_bloom_filter` either fails returning nothing (no partially
constructed filter reaches the caller) or returns a filter whose bit
array is the zeroed buffer of `capacity / 8` bytes — so `bloom_contains`
is false for every key on it — and whose count is 0. -/
theorem C9_create_semantics (mallocOk callocOk : Bool) (m size : Nat)
    (h8 : size % 8 = 0) :
    create_bloom_filter mallocOk callocOk size = none ∨
    ∃ f, create_bloom_filter mallocOk callocOk size = some f ∧
      f.bit_array = List.replicate (size / 8) 0 ∧ f.size = size ∧ f.count = 0 ∧
      ∀ k, bloom_contains m f k = false := by
  cases mallocOk with
  | false => exact Or.inl rfl
  | true =>
      cases callocOk with
      | false => exact Or.inl rfl
      | true =>
          refine Or.inr ⟨_, rfl, rfl, rfl, rfl, ?_⟩
          intro k
          simp [bloom_contains, get_bit, getD_replicate_zero]

/-- Witness for C9 at capacity 16 (both allocations succeed). -/
theorem C9_witness :
    16 % 8 = 0 ∧
    (create_bloom_filter true true 16 = none ∨
      ∃ f, create_bloom_filter true true 16 = some f ∧
        f.bit_array = List.replicate (16 / 8) 0 ∧ f.size = 16 ∧ f.count = 0 ∧
        ∀ k, bloom_contains 7 f k = false) :=
  ⟨by decide, C9_create_semantics true true 7 16 (by decide)⟩

/-- Claim C10: populator index safety — with at least one shard and an
in-range starting cursor (the run starts at 0), every shard index
population reads or inserts through stays in `[0, num_filters)`, and so
does the cursor after the run. -/
theorem C10_populate_index_safety (m n cur : Nat) (fs : List BloomFilter)
    (lines : List (List Nat)) (hn : 1 ≤ n) (hcur : cur < n) :
    (∀ i ∈ populate_cursors m fs lines n cur, i < n) ∧
    (populate_recursive_bloom_filters m fs lines n cur).2 < n :=
  ⟨populate_cursors_lt m lines fs n cur hn hcur,
    populate_final_cursor_lt m lines fs n cur hn hcur⟩

/-- Witness for C10: two shards, three lines, cursor starting at 0. -/
theorem C10_witness :
    1 ≤ 2 ∧ 0 < 2 ∧
    ((∀ i ∈ populate_cursors 16 [⟨[0, 0], 16, 0⟩, ⟨[0, 0], 16, 0⟩]
        [[65], [66], [67]] 2 0, i < 2) ∧
      (populate_recursive_bloom_filters 16 [⟨[0, 0], 16, 0⟩, ⟨[0, 0], 16, 0⟩]
        [[65], [66], [67]] 2 0).2 < 2) :=
  ⟨by decide, by decide,
    C10_populate_index_safety 16 2 0 [⟨[0, 0], 16, 0⟩, ⟨[0, 0], 16, 0⟩]
      [[65], [66], [67]] (by decide) (by decide)⟩
